import Mathlib

/-!
Shallow embedding of the IoStore container reader (`src/ue4/io/IoStore.ts`
and `Utils` from `src/util/Utils.ts`) of the unreal.js repository, with the
theorems settling the frozen claims about it.

Buffers are modelled as `List Nat` whose members are byte values (< 256).
JavaScript `number` bitwise operators coerce to 32-bit signed integers; we
model that coercion (`toInt32`) and the arithmetic shift (`jsShr32`)
explicitly, so getters that can go negative return `Int`.
-/

namespace IoStore

/-- `Buffer.readUInt32LE(off)`: little-endian u32 of bytes `off..off+4`. -/
def readUInt32LE (d : List Nat) (off : Nat) : Nat :=
  d.getD off 0 + d.getD (off + 1) 0 * 2 ^ 8 + d.getD (off + 2) 0 * 2 ^ 16
    + d.getD (off + 3) 0 * 2 ^ 24

/-- `Buffer.readBigUInt64LE()`: little-endian u64 of bytes `0..8`. -/
def readUInt64LE (d : List Nat) (off : Nat) : Nat :=
  readUInt32LE d off + readUInt32LE d (off + 4) * 2 ^ 32

/-- JavaScript `ToInt32`: reduce mod 2^32 into `[-2^31, 2^31)`. -/
def toInt32 (n : Nat) : Int :=
  if n % 2 ^ 32 < 2 ^ 31 then (n % 2 ^ 32 : Nat) else (n % 2 ^ 32 : Nat) - 2 ^ 32

/-- JavaScript `x >> k` on a `number` holding `x` (a non-negative integer):
`ToInt32`, then arithmetic shift right, i.e. floor division by `2^k`. -/
def jsShr32 (x : Nat) (k : Nat) : Int :=
  Int.fdiv (toInt32 x) (2 ^ k)

/-- `FIoStoreTocCompressedBlockEntry.OffsetBits = 40`. -/
def OffsetBits : Nat := 40

/-- `FIoStoreTocCompressedBlockEntry.SizeBits = 24`. -/
def SizeBits : Nat := 24

/-- `FIoStoreTocCompressedBlockEntry.SizeShift = 8`. -/
def SizeShift : Nat := 8

/-- `get offset`: `data.readBigUInt64LE() & OffsetMask` (BigInt arithmetic,
mask is `2^40 - 1`, so this is the low 40 bits). -/
def blockOffset (d : List Nat) : Nat :=
  readUInt64LE d 0 % 2 ^ OffsetBits

/-- `get compressedSize`: `data.readUInt32LE(4) >> SizeShift` — a JS signed
32-bit shift with no mask, so the result is negative when byte 7 ≥ 0x80. -/
def blockCompressedSize (d : List Nat) : Int :=
  jsShr32 (readUInt32LE d 4) SizeShift

/-- `get uncompressedSize`: `data.readUInt32LE(2*4) & SizeMask` with
`SizeMask = 2^24 - 1`; the JS `&` keeps the low 24 bits (non-negative). -/
def blockUncompressedSize (d : List Nat) : Nat :=
  readUInt32LE d 8 % 2 ^ SizeBits

/-- `get compressionMethodIndex`: `data.readUInt32LE(2*4) >> SizeBits` — a
JS signed 32-bit shift, so the result is negative when byte 11 ≥ 0x80. -/
def blockCompressionMethodIndex (d : List Nat) : Int :=
  jsShr32 (readUInt32LE d 8) SizeBits

/-- The spec's reference decode of `offset` (§3 CompressedBlockEntry):
little-endian u64 of bytes 0..8 masked to its low 40 bits. -/
def spec_blockOffset (d : List Nat) : Nat :=
  readUInt64LE d 0 % 2 ^ 40

/-- The spec's reference decode of `compressedSize`: unsigned
`(u32_at_offset_4 >> 8) & 0xFFFFFF`. -/
def spec_blockCompressedSize (d : List Nat) : Nat :=
  readUInt32LE d 4 / 2 ^ 8 % 2 ^ 24

/-- The spec's reference decode of `uncompressedSize`: unsigned
`u32_at_offset_8 & 0xFFFFFF`. -/
def spec_blockUncompressedSize (d : List Nat) : Nat :=
  readUInt32LE d 8 % 2 ^ 24

/-- The spec's reference decode of `compressionMethodIndex`: unsigned
`u32_at_offset_8 >> 24`. -/
def spec_blockCompressionMethodIndex (d : List Nat) : Nat :=
  readUInt32LE d 8 / 2 ^ 24

theorem jsShr32_eight (x : Nat) (hx : x < 2 ^ 32) :
    jsShr32 x 8 = ((x / 2 ^ 8 : Nat) : Int) - (if 2 ^ 31 ≤ x then 2 ^ 24 else 0) := by
  unfold jsShr32 toInt32
  rw [Int.fdiv_eq_ediv _ (by norm_num)]
  split_ifs <;> omega

theorem jsShr32_twentyfour (x : Nat) (hx : x < 2 ^ 32) :
    jsShr32 x 24 = ((x / 2 ^ 24 : Nat) : Int) - (if 2 ^ 31 ≤ x then 2 ^ 8 else 0) := by
  unfold jsShr32 toInt32
  rw [Int.fdiv_eq_ediv _ (by norm_num)]
  split_ifs <;> omega

/-- `Utils.align(value, alignment)` / `Utils.alignBigInt`: the source
computes `value + alignment & ~(alignment - 1)`, i.e.
`(value + alignment) & ~(alignment - 1)` by precedence.  For the
power-of-two alignments the reader uses (16 and `compressionBlockSize`)
clearing the low bits of `value + alignment` is exactly rounding
`value + alignment` down to a multiple of `alignment`, which is what we
write here.  Note this over-aligns: an already aligned `value` maps to
`value + alignment`. -/
def align (value alignment : Nat) : Nat :=
  value + alignment - (value + alignment) % alignment

/-- C3: the claim fails on the code at the concrete block entry
`[0,0,0,0, 0,0,0,0xFF, 0,0,0,0xFF]`: JavaScript's signed 32-bit `>>`
makes `compressedSize` and `compressionMethodIndex` negative (−65536 and
−1) where the spec's unsigned formulas give 16711680 and 255. -/
theorem c3_block_entry_decode_counterexample :
    ¬ (blockOffset [0, 0, 0, 0, 0, 0, 0, 255, 0, 0, 0, 255]
          = spec_blockOffset [0, 0, 0, 0, 0, 0, 0, 255, 0, 0, 0, 255]
        ∧ blockCompressedSize [0, 0, 0, 0, 0, 0, 0, 255, 0, 0, 0, 255]
          = (spec_blockCompressedSize [0, 0, 0, 0, 0, 0, 0, 255, 0, 0, 0, 255] : Int)
        ∧ blockUncompressedSize [0, 0, 0, 0, 0, 0, 0, 255, 0, 0, 0, 255]
          = spec_blockUncompressedSize [0, 0, 0, 0, 0, 0, 0, 255, 0, 0, 0, 255]
        ∧ blockCompressionMethodIndex [0, 0, 0, 0, 0, 0, 0, 255, 0, 0, 0, 255]
          = (spec_blockCompressionMethodIndex [0, 0, 0, 0, 0, 0, 0, 255, 0, 0, 0, 255] : Int)
        ∧ spec_blockCompressionMethodIndex [0, 0, 0, 0, 0, 0, 0, 255, 0, 0, 0, 255] < 256) := by
  decide

/-- C3 (amended): for every 12-byte compression-block entry, `offset` and
`uncompressedSize` decode exactly as the spec's unsigned reference
formulas; `compressedSize` and `compressionMethodIndex` equal the
reference formulas when byte 7 (resp. byte 11) is below 0x80, and are
2^24 (resp. 2^8 = 256) lower — negative — otherwise, because the
source uses JavaScript's signed 32-bit `>>` without a mask. -/
theorem c3_block_entry_decode_amended (d : List Nat) (hlen : d.length = 12)
    (hb : ∀ x ∈ d, x < 256) :
    blockOffset d = spec_blockOffset d
    ∧ blockUncompressedSize d = spec_blockUncompressedSize d
    ∧ blockCompressedSize d = (spec_blockCompressedSize d : Int)
        - (if 128 ≤ d.getD 7 0 then 2 ^ 24 else 0)
    ∧ blockCompressionMethodIndex d = (spec_blockCompressionMethodIndex d : Int)
        - (if 128 ≤ d.getD 11 0 then 2 ^ 8 else 0)
    ∧ spec_blockCompressionMethodIndex d = d.getD 11 0 := by
  match d, hlen with
  | [b0, b1, b2, b3, b4, b5, b6, b7, b8, b9, b10, b11], _ =>
    have h4 : b4 < 256 := hb b4 (by simp)
    have h5 : b5 < 256 := hb b5 (by simp)
    have h6 : b6 < 256 := hb b6 (by simp)
    have h7 : b7 < 256 := hb b7 (by simp)
    have h8 : b8 < 256 := hb b8 (by simp)
    have h9 : b9 < 256 := hb b9 (by simp)
    have h10 : b10 < 256 := hb b10 (by simp)
    have h11 : b11 < 256 := hb b11 (by simp)
    have e4 : readUInt32LE [b0, b1, b2, b3, b4, b5, b6, b7, b8, b9, b10, b11] 4
        = b4 + b5 * 2 ^ 8 + b6 * 2 ^ 16 + b7 * 2 ^ 24 := by
      simp [readUInt32LE, List.getD]
    have e8 : readUInt32LE [b0, b1, b2, b3, b4, b5, b6, b7, b8, b9, b10, b11] 8
        = b8 + b9 * 2 ^ 8 + b10 * 2 ^ 16 + b11 * 2 ^ 24 := by
      simp [readUInt32LE, List.getD]
    have g7 : ([b0, b1, b2, b3, b4, b5, b6, b7, b8, b9, b10, b11] : List Nat).getD 7 0
        = b7 := rfl
    have g11 : ([b0, b1, b2, b3, b4, b5, b6, b7, b8, b9, b10, b11] : List Nat).getD 11 0
        = b11 := rfl
    refine ⟨rfl, rfl, ?_, ?_, ?_⟩
    · show jsShr32 _ 8 = _
      rw [e4, jsShr32_eight _ (by omega)]
      simp only [spec_blockCompressedSize, e4, g7]
      split_ifs <;> omega
    · show jsShr32 _ 24 = _
      rw [e8, jsShr32_twentyfour _ (by omega)]
      simp only [spec_blockCompressionMethodIndex, e8, g11]
      split_ifs <;> omega
    · simp only [spec_blockCompressionMethodIndex, e8, g11]
      omega

/-- C3 witness: the amended decode evaluated at the concrete entry
`[1,2,3,4,5,6,7,200,9,10,11,200]` (bytes 7 and 11 above 0x80). -/
theorem c3_block_entry_decode_amended_witness :
    blockOffset [1, 2, 3, 4, 5, 6, 7, 200, 9, 10, 11, 200]
      = spec_blockOffset [1, 2, 3, 4, 5, 6, 7, 200, 9, 10, 11, 200]
    ∧ blockUncompressedSize [1, 2, 3, 4, 5, 6, 7, 200, 9, 10, 11, 200]
      = spec_blockUncompressedSize [1, 2, 3, 4, 5, 6, 7, 200, 9, 10, 11, 200]
    ∧ blockCompressedSize [1, 2, 3, 4, 5, 6, 7, 200, 9, 10, 11, 200]
      = (spec_blockCompressedSize [1, 2, 3, 4, 5, 6, 7, 200, 9, 10, 11, 200] : Int)
        - (if 128 ≤ ([1, 2, 3, 4, 5, 6, 7, 200, 9, 10, 11, 200] : List Nat).getD 7 0
            then 2 ^ 24 else 0)
    ∧ blockCompressionMethodIndex [1, 2, 3, 4, 5, 6, 7, 200, 9, 10, 11, 200]
      = (spec_blockCompressionMethodIndex [1, 2, 3, 4, 5, 6, 7, 200, 9, 10, 11, 200] : Int)
        - (if 128 ≤ ([1, 2, 3, 4, 5, 6, 7, 200, 9, 10, 11, 200] : List Nat).getD 11 0
            then 2 ^ 8 else 0)
    ∧ spec_blockCompressionMethodIndex [1, 2, 3, 4, 5, 6, 7, 200, 9, 10, 11, 200]
      = ([1, 2, 3, 4, 5, 6, 7, 200, 9, 10, 11, 200] : List Nat).getD 11 0 :=
  c3_block_entry_decode_amended [1, 2, 3, 4, 5, 6, 7, 200, 9, 10, 11, 200]
    (by decide) (by decide)

/-- `FIoStoreReader.read`: `firstBlockIndex = floor(offset / compressionBlockSize)`. -/
def firstBlockIndex (offset B : Nat) : Nat := offset / B

/-- `FIoStoreReader.read`: `lastBlockIndex =
floor((alignBigInt(offset + length, B) - 1) / B)`; `Utils.alignBigInt` is the
BigInt twin of `Utils.align` (same formula). -/
def lastBlockIndex (offset length B : Nat) : Nat :=
  (align (offset + length) B - 1) / B

/-- The block indices the `while (blockIndex <= lastBlockIndex)` loop visits,
starting at `firstBlockIndex`. -/
def readVisitedBlocks (offset length B : Nat) : List Nat :=
  List.range' (firstBlockIndex offset B)
    (lastBlockIndex offset length B + 1 - firstBlockIndex offset B)

/-- The per-iteration `sizeInBlock = min(B - offsetInBlock, remainingSize)`
values of the copy loop: after each block `offsetInBlock` resets to 0 and
`remainingSize` drops by the copied amount.  The third argument is the
number of loop iterations. -/
def readCopyLens (B : Nat) : Nat → Nat → Nat → List Nat
  | _, _, 0 => []
  | offsetInBlock, remaining, Nat.succ n =>
      let sizeInBlock := min (B - offsetInBlock) remaining
      sizeInBlock :: readCopyLens B 0 (remaining - sizeInBlock) n

/-- The copy lengths of a whole `read`: `offsetInBlock` starts at
`offset % B`, `remaining` at `length`, one iteration per visited block. -/
def readCopyLenList (offset length B : Nat) : List Nat :=
  readCopyLens B (offset % B) length (readVisitedBlocks offset length B).length

/-- C1 at the failing input `offset = 0`, `length = 16`,
`compressionBlockSize = 16`: because `Utils.align` over-aligns an already
aligned value, the loop visits block 1 — whose byte range `[16, 32)` lies
entirely outside `[offset, offset + length) = [0, 16)` — contradicting the
claim's "no block outside that interval is visited".  (The copy-length sum
still equals `length`: the extra iteration copies 0 bytes.) -/
theorem c1_block_range_at_failing_input :
    readVisitedBlocks 0 16 16 = [0, 1]
    ∧ 0 + 16 ≤ 1 * 16
    ∧ readCopyLenList 0 16 16 = [16, 0]
    ∧ (readCopyLenList 0 16 16).sum = 16 := by
  decide

/-- `FIoChunkId`: a 12-byte chunk identifier (`id` is the raw buffer);
equality — and the `toString("base64")` map key the TOC builds — is
bytewise. -/
structure FIoChunkId where
  id : List Nat
deriving DecidableEq

/-- The lookup the `chunkIdToIndex` object provides after
`FIoStoreTocResource.read` ran `this.chunkIdToIndex[id...] = i` for
`i = base, base+1, ...` over `ids`: a later assignment to the same key
wins. -/
def chunkIdToIndexLookup (c : FIoChunkId) : List FIoChunkId → Nat → Option Nat
  | [], _ => none
  | x :: rest, base =>
    match chunkIdToIndexLookup c rest (base + 1) with
    | some j => some j
    | none => if x = c then some base else none

/-- The `chunkIdToIndex` map of a TOC whose chunk-id table is `ids`. -/
def chunkIdToIndex (ids : List FIoChunkId) (c : FIoChunkId) : Option Nat :=
  chunkIdToIndexLookup c ids 0

/-- `FIoStoreTocResource.getTocEntryIndex`:
`this.chunkIdToIndex[key] || -1` — the `|| -1` fallback also fires when the
stored index is 0, because 0 is falsy in JavaScript. -/
def getTocEntryIndex (ids : List FIoChunkId) (c : FIoChunkId) : Int :=
  match chunkIdToIndex ids c with
  | none => -1
  | some i => if i = 0 then -1 else (i : Int)

/-- `FIoStoreTocResource.getOffsetAndLength`:
`index != null ? this.chunkOffsetLengths[index] : null` (an explicit
presence test, so index 0 resolves); an out-of-range array read yields
JavaScript `undefined`, modelled by `none`. -/
def getOffsetAndLength (ids : List FIoChunkId) (ols : List (Nat × Nat))
    (c : FIoChunkId) : Option (Nat × Nat) :=
  match chunkIdToIndex ids c with
  | none => none
  | some i => ols[i]?

/-- `FIoStoreReader.read` throws `"Unknown chunk ID"` exactly when
`getOffsetAndLength` came back falsy. -/
def readUnknownChunkError (ids : List FIoChunkId) (ols : List (Nat × Nat))
    (c : FIoChunkId) : Bool :=
  (getOffsetAndLength ids ols c).isNone

/-- C2 at the failing input: a TOC holding the single chunk id
`[1,0,0,0,0,0,0,0,0,0,0,2]` stores it at entry index 0, yet
`getTocEntryIndex` answers `-1` for it — `0 || -1` evaluates to `-1`. -/
theorem c2_entry_index_zero_at_failing_input :
    chunkIdToIndex [⟨[1, 0, 0, 0, 0, 0, 0, 0, 0, 0, 0, 2]⟩]
        ⟨[1, 0, 0, 0, 0, 0, 0, 0, 0, 0, 0, 2]⟩ = some 0
    ∧ getTocEntryIndex [⟨[1, 0, 0, 0, 0, 0, 0, 0, 0, 0, 0, 2]⟩]
        ⟨[1, 0, 0, 0, 0, 0, 0, 0, 0, 0, 0, 2]⟩ = -1 := by
  decide

theorem chunkIdToIndexLookup_eq_none_iff (c : FIoChunkId) (ids : List FIoChunkId)
    (base : Nat) : chunkIdToIndexLookup c ids base = none ↔ c ∉ ids := by
  induction ids generalizing base with
  | nil => simp [chunkIdToIndexLookup]
  | cons x rest ih =>
    simp only [chunkIdToIndexLookup, List.mem_cons]
    cases hr : chunkIdToIndexLookup c rest (base + 1) with
    | some j =>
      have hmem : c ∈ rest := by
        by_contra hc
        rw [(ih (base + 1)).mpr hc] at hr
        cases hr
      constructor
      · intro h; cases h
      · intro hn; exact (hn (Or.inr hmem)).elim
    | none =>
      have hrest : c ∉ rest := (ih (base + 1)).mp hr
      by_cases hx : x = c
      · subst hx; simp
      · simp only [if_neg hx]
        simp only [true_iff, eq_self_iff_true, not_or]
        exact ⟨fun e => hx e.symm, hrest⟩

theorem chunkIdToIndexLookup_some_lt (c : FIoChunkId) (ids : List FIoChunkId)
    (base j : Nat) (h : chunkIdToIndexLookup c ids base = some j) :
    base ≤ j ∧ j < base + ids.length := by
  induction ids generalizing base with
  | nil => simp [chunkIdToIndexLookup] at h
  | cons x rest ih =>
    simp only [chunkIdToIndexLookup] at h
    cases hr : chunkIdToIndexLookup c rest (base + 1) with
    | some k =>
      rw [hr] at h
      obtain rfl : k = j := by simpa using h
      have := ih (base + 1) hr
      constructor <;> [omega; (simp only [List.length_cons]; omega)]
    | none =>
      rw [hr] at h
      by_cases hx : x = c
      · simp [hx] at h
        simp only [List.length_cons]
        omega
      · simp [hx] at h

/-- C6: `FIoStoreReader.read(chunkId)` raises the unknown-chunk error
exactly when `chunkId` is absent from the chunk index; every present id —
the one at entry index 0 included — resolves to an entry's offset/length
pair and raises no such error.  `h` is the TOC shape invariant
`|chunkOffsetLengths| = |chunkIds|`. -/
theorem c6_read_unknown_chunk (ids : List FIoChunkId) (ols : List (Nat × Nat))
    (c : FIoChunkId) (h : ols.length = ids.length) :
    (readUnknownChunkError ids ols c = true ↔ c ∉ ids)
    ∧ (c ∈ ids → ∃ i p, chunkIdToIndex ids c = some i ∧ ols[i]? = some p
        ∧ getOffsetAndLength ids ols c = some p
        ∧ readUnknownChunkError ids ols c = false) := by
  cases hidx : chunkIdToIndex ids c with
  | none =>
    have hmem : c ∉ ids := (chunkIdToIndexLookup_eq_none_iff c ids 0).mp hidx
    refine ⟨?_, fun hc => absurd hc hmem⟩
    simp [readUnknownChunkError, getOffsetAndLength, hidx, hmem]
  | some i =>
    have hb := chunkIdToIndexLookup_some_lt c ids 0 i hidx
    have hi : i < ols.length := by omega
    have hget : ols[i]? = some (ols.get ⟨i, hi⟩) := List.getElem?_eq_getElem hi
    have hmem : c ∈ ids := by
      by_contra hc
      have hidx' : chunkIdToIndexLookup c ids 0 = some i := hidx
      rw [(chunkIdToIndexLookup_eq_none_iff c ids 0).mpr hc] at hidx'
      cases hidx'
    constructor
    · simp [readUnknownChunkError, getOffsetAndLength, hidx, hget, hmem]
    · exact fun _ => ⟨i, ols.get ⟨i, hi⟩, rfl, hget, by
        simp [getOffsetAndLength, hidx, hget], by
        simp [readUnknownChunkError, getOffsetAndLength, hidx, hget]⟩

/-- C6 witness: a two-entry TOC queried at the id stored at entry index 0. -/
theorem c6_read_unknown_chunk_witness :
    (([(5, 7), (9, 11)] : List (Nat × Nat)).length
        = ([⟨[1, 0, 0, 0, 0, 0, 0, 0, 0, 0, 0, 2]⟩, ⟨[3, 0, 0, 0, 0, 0, 0, 0, 0, 0, 0, 3]⟩]
            : List FIoChunkId).length)
    ∧ ((readUnknownChunkError
          [⟨[1, 0, 0, 0, 0, 0, 0, 0, 0, 0, 0, 2]⟩, ⟨[3, 0, 0, 0, 0, 0, 0, 0, 0, 0, 0, 3]⟩]
          [(5, 7), (9, 11)] ⟨[1, 0, 0, 0, 0, 0, 0, 0, 0, 0, 0, 2]⟩ = true
        ↔ (⟨[1, 0, 0, 0, 0, 0, 0, 0, 0, 0, 0, 2]⟩ : FIoChunkId)
            ∉ [⟨[1, 0, 0, 0, 0, 0, 0, 0, 0, 0, 0, 2]⟩, ⟨[3, 0, 0, 0, 0, 0, 0, 0, 0, 0, 0, 3]⟩])
      ∧ ((⟨[1, 0, 0, 0, 0, 0, 0, 0, 0, 0, 0, 2]⟩ : FIoChunkId)
            ∈ [⟨[1, 0, 0, 0, 0, 0, 0, 0, 0, 0, 0, 2]⟩, ⟨[3, 0, 0, 0, 0, 0, 0, 0, 0, 0, 0, 3]⟩]
          → ∃ i p, chunkIdToIndex
              [⟨[1, 0, 0, 0, 0, 0, 0, 0, 0, 0, 0, 2]⟩, ⟨[3, 0, 0, 0, 0, 0, 0, 0, 0, 0, 0, 3]⟩]
              ⟨[1, 0, 0, 0, 0, 0, 0, 0, 0, 0, 0, 2]⟩ = some i
            ∧ ([(5, 7), (9, 11)] : List (Nat × Nat))[i]? = some p
            ∧ getOffsetAndLength
                [⟨[1, 0, 0, 0, 0, 0, 0, 0, 0, 0, 0, 2]⟩, ⟨[3, 0, 0, 0, 0, 0, 0, 0, 0, 0, 0, 3]⟩]
                [(5, 7), (9, 11)] ⟨[1, 0, 0, 0, 0, 0, 0, 0, 0, 0, 0, 2]⟩ = some p
            ∧ readUnknownChunkError
                [⟨[1, 0, 0, 0, 0, 0, 0, 0, 0, 0, 0, 2]⟩, ⟨[3, 0, 0, 0, 0, 0, 0, 0, 0, 0, 0, 3]⟩]
                [(5, 7), (9, 11)] ⟨[1, 0, 0, 0, 0, 0, 0, 0, 0, 0, 0, 2]⟩ = false)) :=
  ⟨by decide,
    c6_read_unknown_chunk
      [⟨[1, 0, 0, 0, 0, 0, 0, 0, 0, 0, 0, 2]⟩, ⟨[3, 0, 0, 0, 0, 0, 0, 0, 0, 0, 0, 3]⟩]
      [(5, 7), (9, 11)] ⟨[1, 0, 0, 0, 0, 0, 0, 0, 0, 0, 0, 2]⟩ (by decide)⟩

/-- `FIoStoreTocHeader.TocMagicImg = "-==--==--==--==-"` as ASCII bytes. -/
def tocMagicBytes : List Nat :=
  [45, 61, 61, 45, 45, 61, 61, 45, 45, 61, 61, 45, 45, 61, 61, 45]

/-- The fields of `FIoStoreTocHeader` the TOC checks and the mount use (the
reserved fields and those no claim touches are left out). -/
structure FIoStoreTocHeader where
  tocMagic : List Nat
  version : Nat
  tocHeaderSize : Nat
  tocEntryCount : Nat
  tocCompressedBlockEntryCount : Nat
  tocCompressedBlockEntrySize : Nat
  compressionMethodNameCount : Nat
  compressionMethodNameLength : Nat
  compressionBlockSize : Nat
  directoryIndexSize : Nat
  partitionCount : Nat
  containerId : Nat
  encryptionKeyGuid : List Nat
  containerFlags : Nat
  partitionSize : Nat
deriving DecidableEq

/-- The `FIoStoreTocHeader` constructor's field reads over the 144-byte
header buffer (little-endian, at the fixed offsets of the layout). -/
def parseTocHeaderFields (d : List Nat) : FIoStoreTocHeader where
  tocMagic := d.take 16
  version := d.getD 16 0
  tocHeaderSize := readUInt32LE d 20
  tocEntryCount := readUInt32LE d 24
  tocCompressedBlockEntryCount := readUInt32LE d 28
  tocCompressedBlockEntrySize := readUInt32LE d 32
  compressionMethodNameCount := readUInt32LE d 36
  compressionMethodNameLength := readUInt32LE d 40
  compressionBlockSize := readUInt32LE d 44
  directoryIndexSize := readUInt32LE d 48
  partitionCount := readUInt32LE d 52
  containerId := readUInt64LE d 56
  encryptionKeyGuid := (d.drop 64).take 16
  containerFlags := d.getD 80 0
  partitionSize := readUInt64LE d 88

/-- The errors `FIoStoreTocResource.read` (header construction included)
can throw before the table reads. -/
inductive TocError where
  | magicMismatch            -- "TOC header magic mismatch"
  | headerSizeMismatch       -- "TOC header size mismatch"
  | blockEntrySizeMismatch   -- "TOC compressed block entry size mismatch"
  | outdatedVersion          -- "Outdated TOC header version"
deriving DecidableEq

/-- `new FIoStoreTocHeader(Ar)`: read the fields, throwing when the first
16 bytes differ from the magic template. -/
def parseTocHeader (d : List Nat) : Except TocError FIoStoreTocHeader :=
  if d.take 16 ≠ tocMagicBytes then .error .magicMismatch
  else .ok (parseTocHeaderFields d)

/-- `EIoStoreTocVersion`: `DirectoryIndex = 2`, `PartitionSize = 3`. -/
def versionDirectoryIndex : Nat := 2

def versionPartitionSize : Nat := 3

/-- The header phase of `FIoStoreTocResource.read`: construct the header
(magic check), then the three sanity checks in source order, then the
partition-field fallback for `version < PartitionSize`. -/
def tocResourceReadHeader (d : List Nat) : Except TocError FIoStoreTocHeader :=
  match parseTocHeader d with
  | .error e => .error e
  | .ok h =>
    if h.tocHeaderSize ≠ 144 then .error .headerSizeMismatch
    else if h.tocCompressedBlockEntrySize ≠ 12 then .error .blockEntrySizeMismatch
    else if h.version < versionDirectoryIndex then .error .outdatedVersion
    else if h.version < versionPartitionSize then
      .ok { h with partitionCount := 1, partitionSize := 0xFFFFFFFFFFFFFFF }
    else .ok h

/-- C7: TOC parsing throws one of the magic / header-size /
block-entry-size errors exactly when the first 16 bytes differ from the
ASCII magic, or the u32 at offset 20 (`tocHeaderSize`) is not 144, or the
u32 at offset 32 (`tocCompressedBlockEntrySize`) is not 12; when all three
conditions hold none of those three errors is raised (the version check
may still reject, with the distinct outdated-version error). -/
theorem c7_header_constant_checks (d : List Nat) :
    (tocResourceReadHeader d = .error .magicMismatch
      ∨ tocResourceReadHeader d = .error .headerSizeMismatch
      ∨ tocResourceReadHeader d = .error .blockEntrySizeMismatch)
    ↔ (d.take 16 ≠ tocMagicBytes ∨ readUInt32LE d 20 ≠ 144
        ∨ readUInt32LE d 32 ≠ 12) := by
  unfold tocResourceReadHeader parseTocHeader
  by_cases hm : d.take 16 = tocMagicBytes
  · simp only [hm, ne_eq, not_true_eq_false, if_false, ite_not]
    have hh : (parseTocHeaderFields d).tocHeaderSize = readUInt32LE d 20 := rfl
    have hb : (parseTocHeaderFields d).tocCompressedBlockEntrySize
        = readUInt32LE d 32 := rfl
    by_cases h1 : readUInt32LE d 20 = 144
    · by_cases h2 : readUInt32LE d 32 = 12
      · by_cases h3 : (parseTocHeaderFields d).version < versionDirectoryIndex
        · simp [Except.bind, hh, hb, h1, h2, h3]
        · by_cases h4 : (parseTocHeaderFields d).version < versionPartitionSize
          · simp [Except.bind, hh, hb, h1, h2, h3, h4]
          · simp [Except.bind, hh, hb, h1, h2, h3, h4]
      · simp [Except.bind, hh, hb, h1, h2]
    · simp [Except.bind, hh, hb, h1]
  · simp [hm]

/-- C9: for every TOC whose header passes validation, a header version
below `PartitionSize` (3) comes out with `partitionCount = 1` and
`partitionSize = 0x0FFFFFFFFFFFFFFF`, and a version at least 3 keeps the
partition fields read from the header bytes. -/
theorem c9_partition_fallback (d : List Nat) (h : FIoStoreTocHeader)
    (hok : tocResourceReadHeader d = .ok h) :
    ((parseTocHeaderFields d).version < versionPartitionSize →
      h.partitionCount = 1 ∧ h.partitionSize = 0xFFFFFFFFFFFFFFF)
    ∧ (versionPartitionSize ≤ (parseTocHeaderFields d).version →
      h.partitionCount = (parseTocHeaderFields d).partitionCount
        ∧ h.partitionSize = (parseTocHeaderFields d).partitionSize) := by
  unfold tocResourceReadHeader parseTocHeader at hok
  by_cases hm : d.take 16 = tocMagicBytes
  · simp only [hm, ne_eq, not_true_eq_false, if_false] at hok
    by_cases h1 : (parseTocHeaderFields d).tocHeaderSize ≠ 144
    · simp [Except.bind, h1] at hok
    · by_cases h2 : (parseTocHeaderFields d).tocCompressedBlockEntrySize ≠ 12
      · simp [Except.bind, h1, h2] at hok
      · by_cases h3 : (parseTocHeaderFields d).version < versionDirectoryIndex
        · simp [Except.bind, h1, h2, h3] at hok
        · by_cases h4 : (parseTocHeaderFields d).version < versionPartitionSize
          · simp only [Except.bind, h1, h2, h3, h4, if_true, if_false,
              ite_false, ite_true] at hok
            simp [Except.pure] at hok
            constructor
            · intro _; rw [← hok]; exact ⟨rfl, rfl⟩
            · intro hge; omega
          · simp only [Except.bind, h1, h2, h3, h4, if_true, if_false,
              ite_false, ite_true] at hok
            simp [Except.pure] at hok
            constructor
            · intro hlt; exact absurd hlt h4
            · intro _; rw [← hok]; exact ⟨rfl, rfl⟩
  · simp [hm] at hok

/-- A concrete well-formed 144-byte version-2 TOC header: magic,
`version = 2` at offset 16, `tocHeaderSize = 144` at 20,
`tocCompressedBlockEntrySize = 12` at 32, `partitionCount = 7` at 52 and
`partitionSize = 9` at 88 (both to be overridden by the fallback). -/
def exampleTocV2Bytes : List Nat :=
  tocMagicBytes ++ [2, 0, 0, 0, 144] ++ List.replicate 11 0 ++ [12]
    ++ List.replicate 19 0 ++ [7] ++ List.replicate 35 0 ++ [9]
    ++ List.replicate 55 0

/-- The header `tocResourceReadHeader exampleTocV2Bytes` returns. -/
def exampleTocV2Header : FIoStoreTocHeader :=
  { parseTocHeaderFields exampleTocV2Bytes with
      partitionCount := 1, partitionSize := 0xFFFFFFFFFFFFFFF }

/-- C9 witness: the version-2 example header parses and synthesizes the
partition defaults. -/
theorem c9_partition_fallback_witness :
    (parseTocHeaderFields exampleTocV2Bytes).version < versionPartitionSize
    ∧ (((parseTocHeaderFields exampleTocV2Bytes).version < versionPartitionSize →
        exampleTocV2Header.partitionCount = 1
          ∧ exampleTocV2Header.partitionSize = 0xFFFFFFFFFFFFFFF)
      ∧ (versionPartitionSize ≤ (parseTocHeaderFields exampleTocV2Bytes).version →
        exampleTocV2Header.partitionCount
            = (parseTocHeaderFields exampleTocV2Bytes).partitionCount
          ∧ exampleTocV2Header.partitionSize
            = (parseTocHeaderFields exampleTocV2Bytes).partitionSize)) :=
  ⟨by decide,
    c9_partition_fallback exampleTocV2Bytes exampleTocV2Header (by rfl)⟩

/-- Modelled from the spec: `EIoContainerFlags` (`IoDispatcher.ts` is not
under `src/`) is the 8-bit flag set `Compressed, Encrypted, Signed,
Indexed` (§3); bits are assigned in that order, so `Encrypted = 1 <<< 1 = 2`. -/
def flagEncrypted : Nat := 2

/-- The errors `_initialize` can raise after the TOC parsed (file handles
and the TOC reads themselves are outside this model). -/
inductive MountError where
  | unsupportedPartitions  -- "... does not support ... multiple partitions"
  | missingKey             -- "Missing decryption key for IoStore ..."
deriving DecidableEq

/-- The key-resolution step shared by both mount entry points: when the
container flags have `Encrypted` set, `decryptionKeys.get(encryptionKeyGuid)`
must yield a key — a returned `Buffer` is always truthy, so only an absent
entry throws the missing-key error. -/
def resolveDecryptionKey (h : FIoStoreTocHeader)
    (keys : List (List Nat × List Nat)) : Except MountError Unit :=
  if h.containerFlags &&& flagEncrypted ≠ 0 then
    match keys.lookup h.encryptionKeyGuid with
    | none => .error .missingKey
    | some _ => .ok ()
  else .ok ()

/-- `FIoStoreReader.initialize` after the TOC is read and the partition
files opened (file IO is outside the model): the key check. -/
def ioStoreInitialize (h : FIoStoreTocHeader)
    (keys : List (List Nat × List Nat)) : Except MountError Unit :=
  resolveDecryptionKey h keys

/-- `FIoStoreReader._initialize` after the TOC is read: reject more than
one partition, then the key check. -/
def ioStoreInitializeFromMemory (h : FIoStoreTocHeader)
    (keys : List (List Nat × List Nat)) : Except MountError Unit :=
  if h.partitionCount > 1 then .error .unsupportedPartitions
  else resolveDecryptionKey h keys

/-- C8 (amended): with `Encrypted` set, `initialize` fails with the
missing-key error exactly when the key map has no entry for
`encryptionKeyGuid`, and `_initialize` does so too provided
`partitionCount ≤ 1` — with more than one partition its multi-partition
rejection fires before the key lookup; with `Encrypted` clear, neither
entry point ever raises the missing-key error, whatever the key map
holds. -/
theorem c8_missing_key (h : FIoStoreTocHeader)
    (keys : List (List Nat × List Nat)) :
    (h.containerFlags &&& flagEncrypted ≠ 0 →
      (ioStoreInitialize h keys = .error .missingKey
          ↔ keys.lookup h.encryptionKeyGuid = none)
        ∧ (h.partitionCount ≤ 1 →
          (ioStoreInitializeFromMemory h keys = .error .missingKey
            ↔ keys.lookup h.encryptionKeyGuid = none)))
    ∧ (h.containerFlags &&& flagEncrypted = 0 →
      ioStoreInitialize h keys ≠ .error .missingKey
        ∧ ioStoreInitializeFromMemory h keys ≠ .error .missingKey) := by
  constructor
  · intro henc
    have hres : ∀ r, resolveDecryptionKey h keys = r →
        (r = .error .missingKey ↔ keys.lookup h.encryptionKeyGuid = none) := by
      intro r hr
      unfold resolveDecryptionKey at hr
      rw [if_pos henc] at hr
      cases hk : keys.lookup h.encryptionKeyGuid with
      | none => rw [hk] at hr; simp [← hr]
      | some k => rw [hk] at hr; simp [← hr]
    constructor
    · exact hres _ rfl
    · intro hp
      have hnp : ¬ h.partitionCount > 1 := by omega
      unfold ioStoreInitializeFromMemory
      rw [if_neg hnp]
      exact hres _ rfl
  · intro henc
    have : resolveDecryptionKey h keys = .ok () := by
      unfold resolveDecryptionKey
      rw [if_neg (by simp [henc])]
    constructor
    · simp [ioStoreInitialize, this]
    · unfold ioStoreInitializeFromMemory
      by_cases hp : h.partitionCount > 1
      · simp [hp]
      · simp [hp, this]

/-- A concrete encrypted single-partition header (flags `Encrypted = 2`,
guid `[1,…,1]`) for the C8 witness. -/
def exampleEncryptedHeader : FIoStoreTocHeader where
  tocMagic := tocMagicBytes
  version := 3
  tocHeaderSize := 144
  tocEntryCount := 0
  tocCompressedBlockEntryCount := 0
  tocCompressedBlockEntrySize := 12
  compressionMethodNameCount := 0
  compressionMethodNameLength := 32
  compressionBlockSize := 65536
  directoryIndexSize := 0
  partitionCount := 1
  containerId := 0
  encryptionKeyGuid := List.replicate 16 1
  containerFlags := 2
  partitionSize := 100
/-- C8 witness: the encrypted example header with an empty key map. -/
theorem c8_missing_key_witness :
    ((exampleEncryptedHeader.containerFlags &&& flagEncrypted ≠ 0 →
      (ioStoreInitialize exampleEncryptedHeader [] = .error .missingKey
          ↔ ([] : List (List Nat × List Nat)).lookup
              exampleEncryptedHeader.encryptionKeyGuid = none)
        ∧ (exampleEncryptedHeader.partitionCount ≤ 1 →
          (ioStoreInitializeFromMemory exampleEncryptedHeader [] = .error .missingKey
            ↔ ([] : List (List Nat × List Nat)).lookup
                exampleEncryptedHeader.encryptionKeyGuid = none)))
    ∧ (exampleEncryptedHeader.containerFlags &&& flagEncrypted = 0 →
      ioStoreInitialize exampleEncryptedHeader [] ≠ .error .missingKey
        ∧ ioStoreInitializeFromMemory exampleEncryptedHeader [] ≠ .error .missingKey))
    ∧ exampleEncryptedHeader.containerFlags &&& flagEncrypted ≠ 0 :=
  ⟨c8_missing_key exampleEncryptedHeader [], by decide⟩

/-- The encrypted example header with `partitionCount = 2`: a well-formed
version-3 header `_initialize` rejects for its partitions before it ever
looks a key up. -/
def exampleMultiPartitionHeader : FIoStoreTocHeader :=
  { exampleEncryptedHeader with partitionCount := 2 }

/-- C8: the claim fails on the code at an encrypted two-partition header
with an empty key map: the key map has no entry for the guid, yet
`_initialize` does not fail with the missing-key error — its
multi-partition rejection fires first — so the claim's "fail with a
missing-key error if and only if the key map has no entry" is false for
that mount entry point. -/
theorem c8_missing_key_counterexample :
    exampleMultiPartitionHeader.containerFlags &&& flagEncrypted ≠ 0
    ∧ ([] : List (List Nat × List Nat)).lookup
        exampleMultiPartitionHeader.encryptionKeyGuid = none
    ∧ ioStoreInitializeFromMemory exampleMultiPartitionHeader []
        = Except.error MountError.unsupportedPartitions
    ∧ ioStoreInitializeFromMemory exampleMultiPartitionHeader []
        ≠ Except.error MountError.missingKey := by
  refine ⟨by decide, rfl, rfl, ?_⟩
  intro hcontra
  rw [show ioStoreInitializeFromMemory exampleMultiPartitionHeader []
      = Except.error MountError.unsupportedPartitions from rfl] at hcontra
  exact absurd hcontra (by simp)

/-- The bytes of the string `"None"` the method list starts with. -/
def noneMethodBytes : List Nat := [78, 111, 110, 101]

/-- The `while (compressionMethodName[length] !== 0) ++length` scan of one
`compressionMethodNameLength`-byte slot: past the buffer's end a JS
`Buffer` yields `undefined`, and `undefined !== 0` keeps the loop running,
so the scan terminates — at the first NUL — exactly when the slot holds a
zero byte.  `none` stands for the non-terminating scan. -/
def scanMethodNameLen (slot : List Nat) : Option Nat :=
  slot.findIdx? (· == 0)

/-- The name stored for one slot: the slot's bytes before the first NUL
(`compressionMethodName.toString("utf-8", 0, length)`, kept as bytes
here); `none` when the scan of that slot never terminates. -/
def readCompressionMethodName (slot : List Nat) : Option (List Nat) :=
  (scanMethodNameLen slot).map (slot.take ·)

/-- The names of all `compressionMethodNameCount` slots in order; `none`
as soon as one slot's scan diverges. -/
def readCompressionMethodNames : List (List Nat) → Option (List (List Nat))
  | [] => some []
  | s :: rest =>
    match readCompressionMethodName s with
    | none => none
    | some n => (readCompressionMethodNames rest).map (n :: ·)

/-- The `compressionMethods` table `FIoStoreTocResource.read` builds:
`["None"]`, then one trimmed name per slot
(`this.compressionMethods[1 + i] = ...`). -/
def buildCompressionMethods (slots : List (List Nat)) :
    Option (List (List Nat)) :=
  (readCompressionMethodNames slots).map (noneMethodBytes :: ·)

theorem scanMethodNameLen_isSome_iff (s : List Nat) :
    (scanMethodNameLen s).isSome ↔ 0 ∈ s := by
  unfold scanMethodNameLen
  cases h : List.findIdx? (fun b => b == 0) s with
  | none =>
    rw [List.findIdx?_eq_none_iff] at h
    simp only [Option.isSome_none, Bool.false_eq_true, false_iff]
    intro h0
    simpa using h 0 h0
  | some k =>
    rw [List.findIdx?_eq_some_iff_findIdx_eq] at h
    obtain ⟨hk, hfi⟩ := h
    have hkl : List.findIdx (fun b => b == 0) s < s.length := by omega
    have h0 : s[List.findIdx (fun b => b == 0) s] = 0 := by
      simpa using @List.findIdx_getElem _ (fun b => b == 0) s hkl
    simp only [Option.isSome_some, true_iff]
    exact h0 ▸ List.getElem_mem hkl

theorem scanMethodNameLen_spec (s : List Nat) (k : Nat)
    (h : scanMethodNameLen s = some k) :
    s[k]? = some 0 ∧ ∀ j, j < k → s[j]? ≠ some 0 := by
  unfold scanMethodNameLen at h
  rw [List.findIdx?_eq_some_iff_findIdx_eq] at h
  obtain ⟨hk, hfi⟩ := h
  subst hfi
  constructor
  · have h0 : s[List.findIdx (fun b => b == 0) s] = 0 := by
      simpa using @List.findIdx_getElem _ (fun b => b == 0) s hk
    rw [List.getElem?_eq_getElem hk, h0]
  · intro j hj hsome
    have hjl : j < s.length := by omega
    have hfalse := @List.not_of_lt_findIdx _ (fun b => b == 0) s j hj
    rw [List.getElem?_eq_getElem hjl] at hsome
    have hz : s[j] = 0 := by injection hsome
    simp [hz] at hfalse

theorem readCompressionMethodNames_isSome_iff (slots : List (List Nat)) :
    (readCompressionMethodNames slots).isSome ↔ ∀ s ∈ slots, 0 ∈ s := by
  induction slots with
  | nil => simp [readCompressionMethodNames]
  | cons s rest ih =>
    simp only [readCompressionMethodNames, List.mem_cons]
    cases hn : readCompressionMethodName s with
    | none =>
      have hns : ¬ (0 : Nat) ∈ s := by
        rw [← scanMethodNameLen_isSome_iff]
        simp only [readCompressionMethodName, Option.map_eq_none'] at hn
        simp [hn]
      simp only [Option.isSome_none, Bool.false_eq_true, false_iff]
      intro hall
      exact hns (hall s (Or.inl rfl))
    | some n =>
      have h0 : (0 : Nat) ∈ s := by
        rw [← scanMethodNameLen_isSome_iff]
        simp only [readCompressionMethodName, Option.map_eq_some'] at hn
        obtain ⟨k, hk, _⟩ := hn
        simp [hk]
      rw [Option.isSome_map']
      rw [ih]
      constructor
      · intro hall x hx
        rcases hx with rfl | hx
        · exact h0
        · exact hall x hx
      · exact fun hall x hx => hall x (Or.inr hx)

theorem readCompressionMethodNames_spec (slots : List (List Nat))
    (ns : List (List Nat)) (h : readCompressionMethodNames slots = some ns) :
    ns.length = slots.length
    ∧ ∀ (i : Nat) (s : List Nat), slots[i]? = some s →
        ∃ k, scanMethodNameLen s = some k ∧ ns[i]? = some (s.take k) := by
  induction slots generalizing ns with
  | nil =>
    simp only [readCompressionMethodNames, Option.some_inj] at h
    subst h
    exact ⟨rfl, by intro i s hs; simp at hs⟩
  | cons s rest ih =>
    simp only [readCompressionMethodNames] at h
    cases hn : readCompressionMethodName s with
    | none => rw [hn] at h; cases h
    | some n =>
      rw [hn] at h
      cases hr : readCompressionMethodNames rest with
      | none => rw [hr] at h; cases h
      | some tail =>
        rw [hr] at h
        simp only [Option.map_some', Option.some_inj] at h
        subst h
        obtain ⟨hlen, htail⟩ := ih tail hr
        refine ⟨by simp [hlen], ?_⟩
        intro i t ht
        cases i with
        | zero =>
          simp only [List.getElem?_cons_zero, Option.some_inj] at ht
          subst ht
          simp only [readCompressionMethodName, Option.map_eq_some'] at hn
          obtain ⟨k, hk, hnk⟩ := hn
          exact ⟨k, hk, by simp [hnk]⟩
        | succ i =>
          simp only [List.getElem?_cons_succ] at ht ⊢
          exact htail i t ht

/-- C10: the per-slot NUL scan of the compression-method-name table
terminates — modelled by `buildCompressionMethods` returning `some` —
exactly when every `compressionMethodNameLength`-byte slot holds a zero
byte (past the end a JS `Buffer` yields `undefined ≠ 0`, so a slot with no
NUL loops forever); when it terminates, each stored name is exactly its
slot's bytes before the first NUL, the list starts with `"None"` at index
0, and its final length is `compressionMethodNameCount + 1`. -/
theorem c10_method_name_table (slots : List (List Nat)) :
    ((buildCompressionMethods slots).isSome ↔ ∀ s ∈ slots, 0 ∈ s)
    ∧ ∀ ms, buildCompressionMethods slots = some ms →
        ms.length = slots.length + 1
        ∧ ms[0]? = some noneMethodBytes
        ∧ ∀ (i : Nat) (s : List Nat), slots[i]? = some s →
            ∃ k, scanMethodNameLen s = some k
              ∧ ms[i + 1]? = some (s.take k)
              ∧ s[k]? = some 0
              ∧ ∀ j, j < k → s[j]? ≠ some 0 := by
  constructor
  · rw [buildCompressionMethods, Option.isSome_map']
    exact readCompressionMethodNames_isSome_iff slots
  · intro ms hms
    simp only [buildCompressionMethods, Option.map_eq_some'] at hms
    obtain ⟨ns, hns, hcons⟩ := hms
    subst hcons
    obtain ⟨hlen, hspec⟩ := readCompressionMethodNames_spec slots ns hns
    refine ⟨by simp [hlen], by simp, ?_⟩
    intro i s hs
    obtain ⟨k, hk, hns_i⟩ := hspec i s hs
    obtain ⟨hz, hfirst⟩ := scanMethodNameLen_spec s k hk
    exact ⟨k, hk, by simpa using hns_i, hz, hfirst⟩

/-- Characters `[start, stop)` of a string, clamped to its length and
empty when `stop ≤ start` — what `StringBuilder.append(str, start, stop)`
appends.  `StringBuilder` itself (`src/util/StringBuilder.ts`) is not
under `src/`; modelled from the spec's path-joining rule as a plain
string with per-character indexing. -/
def substringChars (s : String) (start stop : Nat) : String :=
  String.mk ((s.data.drop start).take (stop - start))

/-- `Utils.pathAppend(str1, str2, strLength)`: append `'/'` when `str1` is
non-empty and ends in neither `'/'` nor `'\\'`; then, when `strLength > 0`,
append `str2`'s characters from `start` (1 when `str2` begins with a
separator, else 0) up to `min(str1.length, strLength)` — the source really
bounds by `str1.length`, not `str2.length`. -/
def pathAppend (str1 str2 : String) (strLength : Nat) : String :=
  let dataNum := str1.length
  let data :=
    if dataNum > 0 ∧ str1.data.getD (dataNum - 1) ' ' ≠ '/'
        ∧ str1.data.getD (dataNum - 1) ' ' ≠ '\\' then
      str1 ++ "/"
    else str1
  if strLength > 0 then
    let start := if str2.data.getD 0 ' ' = '/' ∨ str2.data.getD 0 ' ' = '\\'
      then 1 else 0
    data ++ substringChars str2 start (min str1.length strLength)
  else data

/-- `Utils.pathAppend(str1, str2)` with the default `strLength = str2.length`. -/
def pathAppendDefault (str1 str2 : String) : String :=
  pathAppend str1 str2 str2.length

/-- C5 at the failing input `a = "/G"`, `b = "Content"`: the emitted path
is `"/G/Co"` — `b` is truncated to `min(a.length, b.length) = 2`
characters — not `"/G/Content"` as the claim requires ("the whole of b").
With `a = ""` the whole of `b` is dropped. -/
theorem c5_path_append_at_failing_input :
    pathAppendDefault "/G" "Content" = "/G/Co"
    ∧ pathAppendDefault "" "abc" = ""
    ∧ pathAppendDefault "/G" "Content" ≠ "/G/Content" := by
  refine ⟨by decide, by decide, by decide⟩

/-- Modelled from the spec: the `EIoChunkType` tag kept in the last byte
of a chunk id (§3; `IoDispatcher.ts` is not under `src/`).
`ExportBundleData = 2`, the third value of the engine's enum
(Invalid, InstallManifest, ExportBundleData, BulkData, …). -/
def chunkTypeExportBundleData : Nat := 2

/-- `FIoChunkId.chunkType`: the last of the 12 id bytes. -/
def chunkIdType (c : FIoChunkId) : Nat := c.id.getD 11 0

/-- `new FByteArchive(chunkId.id).readUInt64()`: the id's first 8 bytes as
a little-endian u64 — the id `getFiles` hands to `GameFile`. -/
def chunkIdU64 (c : FIoChunkId) : Nat := readUInt64LE c.id 0

/-- A file entry of the directory index: its name (resolved through the
string pool) and its `userData`, a u32 index into the chunk-id table.
Modelled from the spec (§3 DirectoryIndexBlob; `IoDirectoryIndex.ts` is
not under `src/`). -/
structure FIoFileEntry where
  name : String
  userData : Nat
deriving DecidableEq

/-- A directory of the directory index with its file entries and named
child directories.  Modelled from the spec: the blob's
`firstChildEntry/nextSiblingEntry/firstFileEntry` u32 chains encode this
tree. -/
inductive FIoDirectory where
  | mk : List FIoFileEntry → List (String × FIoDirectory) → FIoDirectory

mutual

/-- Depth-first file enumeration of one directory, paths relative to the
mount point: the directory's own file entries first, then the child
directories in order, each contributing under `path ++ name ++ "/"`.
Modelled from the spec §4.5 (`iterate`). -/
def dirRelFiles : FIoDirectory → String → List (String × Nat)
  | .mk files subdirs, path =>
      files.map (fun f => (path ++ f.name, f.userData))
        ++ dirsRelFiles subdirs path

/-- Depth-first file enumeration of a list of named sibling directories. -/
def dirsRelFiles : List (String × FIoDirectory) → String → List (String × Nat)
  | [], _ => []
  | (n, d) :: rest, path =>
      dirRelFiles d (path ++ n ++ "/") ++ dirsRelFiles rest path

end

/-- `iterateDirectoryIndex(rootDirectory, "", callback)` as `getFiles`
drives it: every reachable file entry in depth-first order, each path
emitted as `concat(mount_point, relative path)` (spec §4.5). -/
def iterateDirectoryIndex (mount : String) (root : FIoDirectory) :
    List (String × Nat) :=
  (dirRelFiles root "").map (fun e => (mount ++ e.1, e.2))

/-- One callback step of `FIoStoreReader.getFiles`: look the entry's
chunk id up (`this.toc.chunkIds[tocEntryIndex]`) and keep the file —
as `(filename, u64 id)` — only when `chunkId.chunkType` is
`ExportBundleData`. -/
def gameFileOfEntry (ids : List FIoChunkId) (e : String × Nat) :
    Option (String × Nat) :=
  match ids[e.2]? with
  | none => none
  | some c =>
    if chunkIdType c = chunkTypeExportBundleData then some (e.1, chunkIdU64 c)
    else none

/-- The `getFiles` callback folded over the enumerated entries; `none`
models the TypeError of reading `.chunkType` off `undefined` when an
entry's chunk index is out of range. -/
def getFilesAux (ids : List FIoChunkId) :
    List (String × Nat) → Option (List (String × Nat))
  | [] => some []
  | (fn, idx) :: rest =>
    match ids[idx]? with
    | none => none
    | some c =>
      (getFilesAux ids rest).map (fun tail =>
        if chunkIdType c = chunkTypeExportBundleData
          then (fn, chunkIdU64 c) :: tail else tail)

/-- `FIoStoreReader.getFiles()`: iterate the directory index from the
root with an empty path prefix, collecting the ExportBundleData files. -/
def getFiles (ids : List FIoChunkId) (mount : String) (root : FIoDirectory) :
    Option (List (String × Nat)) :=
  getFilesAux ids (iterateDirectoryIndex mount root)

/-- C4: the claim fails on the code at a one-file index whose chunk has
type `BulkData` (tag 3): the file entry is reachable from the root, but
`getFiles` filters it out (only `ExportBundleData` chunks are emitted),
so the yield is not "exactly the set of file-entry nodes reachable from
the root". -/
theorem c4_get_files_counterexample :
    ¬ (getFiles [⟨[0, 0, 0, 0, 0, 0, 0, 0, 0, 0, 0, 3]⟩] "/Game/"
          (.mk [] [("Content", .mk [⟨"A.uasset", 0⟩] [])])
        = some ((iterateDirectoryIndex "/Game/"
            (.mk [] [("Content", .mk [⟨"A.uasset", 0⟩] [])])).map
          (fun e => (e.1, chunkIdU64
            (([⟨[0, 0, 0, 0, 0, 0, 0, 0, 0, 0, 0, 3]⟩] : List FIoChunkId).getD
              e.2 ⟨[]⟩))))) := by
  decide

theorem getFilesAux_eq_filterMap (ids : List FIoChunkId)
    (entries : List (String × Nat))
    (h : ∀ e ∈ entries, e.2 < ids.length) :
    getFilesAux ids entries = some (entries.filterMap (gameFileOfEntry ids)) := by
  induction entries with
  | nil => rfl
  | cons e rest ih =>
    obtain ⟨fn, idx⟩ := e
    have hidx : idx < ids.length := h (fn, idx) (List.mem_cons_self _ _)
    have hrest : ∀ e ∈ rest, e.2 < ids.length :=
      fun e he => h e (List.mem_cons_of_mem _ he)
    have hget : ids[idx]? = some ids[idx] := List.getElem?_eq_getElem hidx
    simp only [getFilesAux, hget, ih hrest, Option.map_some', List.filterMap_cons,
      gameFileOfEntry]
    by_cases hty : chunkIdType ids[idx] = chunkTypeExportBundleData
    · simp [hty]
    · simp [hty]

/-- C4 (amended): under the TOC shape invariant that every reachable file
entry's `userData` indexes the chunk-id table, `getFiles` yields exactly
the reachable file entries whose chunk's type is `ExportBundleData` — in
depth-first order, each at most once, no unreachable entry, every path
beginning with the mount point — each paired with the u64 read off its
chunk id. -/
theorem c4_get_files_amended (ids : List FIoChunkId) (mount : String)
    (root : FIoDirectory)
    (hwf : ∀ e ∈ dirRelFiles root "", e.2 < ids.length) :
    ∃ l, getFiles ids mount root = some l
      ∧ l = (iterateDirectoryIndex mount root).filterMap (gameFileOfEntry ids)
      ∧ ∀ p u, (p, u) ∈ l → ∃ rest, p = mount ++ rest := by
  have hwf' : ∀ e ∈ iterateDirectoryIndex mount root, e.2 < ids.length := by
    intro e he
    simp only [iterateDirectoryIndex, List.mem_map] at he
    obtain ⟨a, ha, rfl⟩ := he
    exact hwf a ha
  refine ⟨(iterateDirectoryIndex mount root).filterMap (gameFileOfEntry ids),
    getFilesAux_eq_filterMap ids _ hwf', rfl, ?_⟩
  intro p u hmem
  rw [List.mem_filterMap] at hmem
  obtain ⟨e, he, hfe⟩ := hmem
  simp only [iterateDirectoryIndex, List.mem_map] at he
  obtain ⟨a, ha, rfl⟩ := he
  unfold gameFileOfEntry at hfe
  split at hfe
  · cases hfe
  · split_ifs at hfe with hty
    refine ⟨a.1, ?_⟩
    injection hfe with h
    exact (congrArg Prod.fst h).symm

/-- A one-file, one-chunk index whose chunk is `ExportBundleData` for the
C4 witness: mount `"/Game/"`, directory `Content`, file `A.uasset` at
chunk index 0. -/
def exampleDirRoot : FIoDirectory :=
  .mk [] [("Content", .mk [⟨"A.uasset", 0⟩] [])]

/-- The chunk-id table of the C4 witness: one ExportBundleData id. -/
def exampleChunkIds : List FIoChunkId :=
  [⟨[7, 0, 0, 0, 0, 0, 0, 0, 0, 0, 0, 2]⟩]

/-- C4 witness: the amended statement at the concrete one-file index. -/
theorem c4_get_files_amended_witness :
    ∃ l, getFiles exampleChunkIds "/Game/" exampleDirRoot = some l
      ∧ l = (iterateDirectoryIndex "/Game/" exampleDirRoot).filterMap
          (gameFileOfEntry exampleChunkIds)
      ∧ ∀ p u, (p, u) ∈ l → ∃ rest, p = "/Game/" ++ rest :=
  c4_get_files_amended exampleChunkIds "/Game/" exampleDirRoot (by decide)

end IoStore
